import Mathlib

/-!
Verification of the audiocaps-download fetch-then-reconcile pipeline
(`audiocaps_download/Downloader.py`) against its specification.

Shallow embedding conventions:
* The filesystem is a map from paths to file contents (`FS`).  A file either
  decodes to a waveform with a number of sample frames (`FileContent.audio`)
  or raises on decode (`FileContent.corrupt`), which models the
  `torchaudio.load` behaviour that `is_valid_file` guards with try/except.
* Python exceptions are modelled with `Except PyExc`: `valueError` for a
  failing `int()` conversion, `osError` for a failing `os.remove`, and
  `keyError` for a missing dictionary key (`self.format_dict[self.format]`).
* `os.remove` can fail at the OS level; which paths fail to delete is an
  oracle `RemoveFails` fixed for a run.
* The external converter invoked through `os.system(yt-dlp ...)` is an
  oracle `Conv` from the full request (video id, window, format, quality,
  destination) to a filesystem transformation; its exit status is ignored
  by the code, so the oracle is total.
* Metadata rows carry the CSV columns used by the code.  `start_time` is a
  float in the source; no claim performs real arithmetic on it beyond the
  fixed `+ 10.0` window, so it is embedded as `Int`.
* Python `int()` is embedded on decimal-digit strings by `String.toNat?`
  (the sign/whitespace/underscore forms accepted by Python never arise for
  the ids at issue and are irrelevant to the claims); `str()` on a
  non-negative integer is `Nat.repr`.
-/

namespace AudiocapsDownload

/-- Content of an on-disk file: an audio file that decodes to `frames`
sample frames, or a file whose decode raises. -/
inductive FileContent where
  | audio (frames : Nat)
  | corrupt
deriving DecidableEq, Repr

/-- The filesystem: a path is either absent (`none`) or holds a file. -/
abbrev FS := String → Option FileContent

/-- Python exceptions relevant to the embedded code. -/
inductive PyExc where
  | valueError
  | osError
  | keyError
deriving DecidableEq, Repr

/-- Which paths `os.remove` fails on (raising `OSError`), fixed per run. -/
abbrev RemoveFails := String → Bool

/-- One metadata row of a split table (columns of the AudioCaps CSVs). -/
structure Row where
  audiocap_id : String
  youtube_id : String
  start_time : Int
  caption : String
deriving DecidableEq, Repr

/-- `self.format_dict` set in `__init__`: output format to file extension. -/
def format_dict : List (String × String) :=
  [("vorbis", "ogg"), ("mp3", "mp3"), ("m4a", "m4a"), ("wav", "wav")]

/-- `String.endsWith`, computed on the character lists. -/
def str_ends_with (s suffix : String) : Bool :=
  suffix.data.isSuffixOf s.data

/-- `os.path.join` for the relative names used here: concatenate, inserting
a separator unless the directory part already ends with one. -/
def os_path_join (a b : String) : String :=
  if str_ends_with a "/" then a ++ b else a ++ "/" ++ b

/-- Python `int()` on the id strings: a non-empty all-digit string is read
as a decimal numeral (leading zeros allowed), anything else raises
`ValueError` (`none`). -/
def pyInt (s : String) : Option Nat :=
  if s.data ≠ [] ∧ s.data.all Char.isDigit then
    some (s.data.foldl (fun n c => 10 * n + (c.toNat - 48)) 0)
  else none

/-- Python `str()` on the integer returned by `int(audiocaps_id)`. -/
def pyStr (n : Nat) : String :=
  Nat.repr n

/-- `Downloader.is_valid_file`: `False` if the path is not a file; decode
errors are caught and yield `False`; a decode with zero sample frames
(`waveform.shape[1] == 0`) yields `False`; otherwise `True`. -/
def is_valid_file (fs : FS) (path : String) : Bool :=
  match fs path with
  | none => false
  | some .corrupt => false
  | some (.audio frames) => if frames == 0 then false else true

/-- The clip path computed in `cross_check_file` (line 172):
`root_path + audiocaps_id + '.' + self.format` — the raw format name, not
the extension from `format_dict`. -/
def check_path (root_path audiocaps_id format : String) : String :=
  root_path ++ audiocaps_id ++ "." ++ format

/-- `os.remove`: deletes the path, or raises `OSError` when the OS refuses. -/
def os_remove (rf : RemoveFails) (path : String) (fs : FS) : Except PyExc FS :=
  if rf path then .error .osError
  else .ok (fun q => if q = path then none else fs q)

/-- `Downloader.cross_check_file`: returns `int(audiocaps_id)` when the clip
at `check_path` is valid, otherwise deletes the file when present and
returns `None`.  The local `audiocaps_id = str(row['audiocap_id'])` is the
identity here because ids are already strings, so it is inlined.  The
result pairs the returned value (or the escaped exception) with the
filesystem after the call. -/
def cross_check_file (rf : RemoveFails) (format : String) (fs : FS)
    (root_path : String) (row : Row) : Except PyExc (Option Nat) × FS :=
  if is_valid_file fs (check_path root_path row.audiocap_id format) then
    match pyInt row.audiocap_id with
    | some n => (.ok (some n), fs)
    | none => (.error .valueError, fs)
  else
    if (fs (check_path root_path row.audiocap_id format)).isSome then
      match os_remove rf (check_path root_path row.audiocap_id format) fs with
      | .error e => (.error e, fs)
      | .ok fs' => (.ok none, fs')
    else
      (.ok none, fs)

/-- The destination path computed in `download_file` (line 288):
`os.path.join(root_path, audiocaps_id + '.' + self.format_dict[self.format])`. -/
def download_target (root_path audiocaps_id ext : String) : String :=
  os_path_join root_path (audiocaps_id ++ "." ++ ext)

/-- The request passed to the external converter (`yt-dlp` command line). -/
structure FetchReq where
  ytid : String
  start_seconds : Int
  end_seconds : Int
  format : String
  quality : Int
  target : String

/-- The external converter as an oracle: the effect of the `os.system` call
on the filesystem.  The code ignores the exit status. -/
abbrev Conv := FetchReq → FS → FS

/-- `Downloader.download_file`: skips when the destination exists, otherwise
invokes the external converter.  Returns the new filesystem and whether the
converter was invoked; `self.format_dict[self.format]` raises `KeyError`
for an unknown format. -/
def download_file (conv : Conv) (format : String) (quality : Int) (fs : FS)
    (root_path ytid : String) (start_seconds end_seconds : Int)
    (audiocaps_id : String) : Except PyExc (FS × Bool) :=
  match format_dict.lookup format with
  | none => .error .keyError
  | some ext =>
    if (fs (download_target root_path audiocaps_id ext)).isSome then
      .ok (fs, false)
    else
      .ok (conv ⟨ytid, start_seconds, end_seconds, format, quality,
                 download_target root_path audiocaps_id ext⟩ fs, true)

/-!
The reconcile batch.  `joblib.Parallel` submits one `cross_check_file` task
per row and returns the results in task (row) order, whatever order the
workers actually execute in.  `run_sched` executes the tasks in the order
given by a schedule (a list of row indices), threading the filesystem, and
tags every result with its task index; `sched_results` then reads the
results back in task order, which is what `joblib.Parallel` hands to
`cross_check`.  The sequential run of the code is the schedule
`List.range rows.length`.  A task that raises is modelled by an `error`
result; `table_of_results` re-raises the first one, as `joblib` re-raises
a worker exception after the batch.
-/

/-- Execute the per-row `cross_check_file` tasks in schedule order,
threading the filesystem and recording `(task index, result)` pairs. -/
def run_sched (rf : RemoveFails) (format root_path : String) (rows : List Row) :
    List Nat → FS → FS × List (Nat × Except PyExc (Option Nat))
  | [], fs => (fs, [])
  | i :: rest, fs =>
    match rows[i]? with
    | none => run_sched rf format root_path rows rest fs
    | some row =>
      let step := cross_check_file rf format fs root_path row
      let next := run_sched rf format root_path rows rest step.2
      (next.1, (i, step.1) :: next.2)

/-- The result list in task order, as returned by `joblib.Parallel`. -/
def sched_results (rf : RemoveFails) (format root_path : String)
    (rows : List Row) (fs : FS) (sched : List Nat) :
    List (Except PyExc (Option Nat)) :=
  (List.range rows.length).filterMap
    (fun i => (run_sched rf format root_path rows sched fs).2.lookup i)

/-- The first worker exception of the batch, if any (re-raised by joblib). -/
def first_error (results : List (Except PyExc (Option Nat))) : Option PyExc :=
  results.findSome? (fun r => match r with | .error e => some e | .ok _ => none)

/-- The successful results of the batch. -/
def ok_results (results : List (Except PyExc (Option Nat))) : List (Option Nat) :=
  results.filterMap (fun r => match r with | .ok o => some o | .error _ => none)

/-- `[str(x) for x in list_of_audiocaps_id if x is not None]` (line 207). -/
def list_of_ids (results : List (Option Nat)) : List String :=
  results.filterMap (fun x => x.map pyStr)

/-- From the batch results, the updated table: the rows of the input table
whose (string) `audiocap_id` is in the valid-id list (`isin`, line 208);
a worker exception escapes instead. -/
def table_of_results (rows : List Row)
    (results : List (Except PyExc (Option Nat))) : Except PyExc (List Row) :=
  match first_error results with
  | some e => .error e
  | none =>
    .ok (rows.filter (fun r => (list_of_ids (ok_results results)).contains r.audiocap_id))

/-- One split of `Downloader.cross_check` (lines 195-208): run the batch of
`cross_check_file` tasks (here in the sequential task order), then filter
the split table by the collected valid ids. -/
def cross_check_split (rf : RemoveFails) (format root_path : String)
    (fs : FS) (rows : List Row) : Except PyExc (List Row × FS) :=
  match table_of_results rows
      ((run_sched rf format root_path rows (List.range rows.length) fs).2.map Prod.snd) with
  | .error e => .error e
  | .ok upd => .ok (upd, (run_sched rf format root_path rows (List.range rows.length) fs).1)

/-- Observable persistence events of `cross_check`: completion of a split's
reconciliation, and a `to_csv(path, index=False)` call carrying the rows it
serializes, the header flag (pandas default `True`) and the index flag. -/
inductive Event where
  | reconciled (split : String)
  | wroteCsv (split : String) (path : String) (rows : List Row)
      (header : Bool) (index : Bool)
deriving DecidableEq, Repr

/-- `Downloader.cross_check`: reconcile the three splits in order, then
persist the three updated tables to `root/{train,val,test}.csv` with a
header row and no index column (lines 266-268).  Returns the updated
tables, the final filesystem, and the ordered persistence events. -/
def cross_check (rf : RemoveFails) (format root_path : String) (fs : FS)
    (train_df val_df test_df : List Row) :
    Except PyExc (List Row × List Row × List Row × FS × List Event) :=
  match cross_check_split rf format (root_path ++ "/train/") fs train_df with
  | .error e => .error e
  | .ok otrain =>
    match cross_check_split rf format (root_path ++ "/val/") otrain.2 val_df with
    | .error e => .error e
    | .ok oval =>
      match cross_check_split rf format (root_path ++ "/test/") oval.2 test_df with
      | .error e => .error e
      | .ok otest =>
        .ok (otrain.1, oval.1, otest.1, otest.2,
          [.reconciled "train", .reconciled "val", .reconciled "test",
           .wroteCsv "train" (root_path ++ "/train.csv") otrain.1 true false,
           .wroteCsv "val" (root_path ++ "/val.csv") oval.1 true false,
           .wroteCsv "test" (root_path ++ "/test.csv") otest.1 true false])

/-- The fetch batch for one split (`download` lines 91-99): call
`download_file` on every row of the table, threading the filesystem.
Returns the final filesystem, the number of converter invocations, and the
rows a `download_file` call was made for. -/
def run_download_split (conv : Conv) (format : String) (quality : Int)
    (root_path : String) (fs : FS) : List Row → Except PyExc (FS × Nat × List Row)
  | [] => .ok (fs, 0, [])
  | row :: rest =>
    match download_file conv format quality fs root_path row.youtube_id
        row.start_time (row.start_time + 10) row.audiocap_id with
    | .error e => .error e
    | .ok (fs', invoked) =>
      match run_download_split conv format quality root_path fs' rest with
      | .error e => .error e
      | .ok (fs'', k, calls) =>
        .ok (fs'', (if invoked then k + 1 else k), row :: calls)

/-- The run-scoped state of a `Downloader` object: constructor fields plus
the split tables from `load_dataset` and the format/quality set by
`download`. -/
structure Downloader where
  root_path : String
  n_jobs : Nat
  train_df : List Row
  val_df : List Row
  test_df : List Row
  format : String
  quality : Int

/-- `Downloader.download`: store format and quality on the object, fetch
the three splits (the `astype(str)` casts are identities here since ids
are already strings), then `cross_check`, which replaces the in-memory
split tables with the reconciled ones (lines 260-262).  Returns the new
object state, the filesystem, the per-split lists of rows for which
`download_file` was called, and the persistence events. -/
def download (conv : Conv) (rf : RemoveFails) (d : Downloader)
    (format : String) (quality : Int) (fs : FS) :
    Except PyExc (Downloader × FS × (List Row × List Row × List Row) × List Event) :=
  match run_download_split conv format quality (d.root_path ++ "/train/") fs d.train_df with
  | .error e => .error e
  | .ok outA =>
    match run_download_split conv format quality (d.root_path ++ "/val/") outA.1 d.val_df with
    | .error e => .error e
    | .ok outB =>
      match run_download_split conv format quality (d.root_path ++ "/test/") outB.1 d.test_df with
      | .error e => .error e
      | .ok outC =>
        match cross_check rf format d.root_path outC.1 d.train_df d.val_df d.test_df with
        | .error e => .error e
        | .ok res =>
          .ok (Downloader.mk d.root_path d.n_jobs res.1 res.2.1 res.2.2.1 format quality,
               res.2.2.2.1, (outA.2.2, outB.2.2, outC.2.2), res.2.2.2.2)

/-!
Proof infrastructure.

The central fact about the reconcile batch is that a `cross_check_file`
task only ever deletes a file it has just found invalid, so along any
execution order the validity of every path is preserved, each task's
result is the one it would compute against the initial filesystem, and the
batch output in task order is schedule-independent.
-/

/-- `is_valid_file` reads only the file at the queried path. -/
theorem is_valid_file_eq_of (fs fs' : FS) (p : String) (h : fs p = fs' p) :
    is_valid_file fs p = is_valid_file fs' p := by
  unfold is_valid_file
  rw [h]

/-- Relation between the initial filesystem of a batch and the filesystem
seen by a later task: every path is untouched, or has been deleted and was
invalid at batch start with a deletion the OS allows. -/
def fs_refines (rf : RemoveFails) (fs0 fs : FS) : Prop :=
  ∀ p, fs p = fs0 p ∨ (fs p = none ∧ is_valid_file fs0 p = false ∧ rf p = false)

theorem fs_refines_refl (rf : RemoveFails) (fs0 : FS) : fs_refines rf fs0 fs0 :=
  fun _ => Or.inl rfl

/-- Under `fs_refines`, validity agrees with validity at batch start. -/
theorem is_valid_file_of_refines {rf : RemoveFails} {fs0 fs : FS}
    (h : fs_refines rf fs0 fs) (p : String) :
    is_valid_file fs p = is_valid_file fs0 p := by
  rcases h p with hp | ⟨hnone, hval, _⟩
  · exact is_valid_file_eq_of fs fs0 p hp
  · rw [hval]
    unfold is_valid_file
    rw [hnone]

/-- A `cross_check_file` task seen from a refined filesystem computes the
result it would compute at batch start, and preserves the refinement. -/
theorem cross_check_file_refines (rf : RemoveFails) (format root_path : String)
    (fs0 fs : FS) (row : Row) (h : fs_refines rf fs0 fs) :
    (cross_check_file rf format fs root_path row).1
      = (cross_check_file rf format fs0 root_path row).1 ∧
    fs_refines rf fs0 (cross_check_file rf format fs root_path row).2 := by
  unfold cross_check_file
  have hv := is_valid_file_of_refines h (check_path root_path row.audiocap_id format)
  by_cases hval : is_valid_file fs0 (check_path root_path row.audiocap_id format) = true
  · rw [hv, hval]
    simp only [if_true]
    cases pyInt row.audiocap_id <;> exact ⟨by trivial, h⟩
  · rw [Bool.not_eq_true] at hval
    rw [hv, hval]
    simp only [Bool.false_eq_true, if_false]
    rcases h (check_path root_path row.audiocap_id format) with hp | ⟨hnone, _, hrf⟩
    · rw [hp]
      cases hsome : (fs0 (check_path root_path row.audiocap_id format)).isSome
      · simp only [Bool.false_eq_true, if_false]
        exact ⟨by trivial, h⟩
      · simp only [if_true]
        unfold os_remove
        cases hfail : rf (check_path root_path row.audiocap_id format)
        · simp only [Bool.false_eq_true, if_false]
          refine ⟨by trivial, fun q => ?_⟩
          by_cases hq : q = check_path root_path row.audiocap_id format
          · subst hq
            exact Or.inr ⟨by simp, hval, hfail⟩
          · simpa [hq] using h q
        · simp only [if_true]
          exact ⟨by trivial, h⟩
    · rw [hnone]
      simp only [Option.isSome_none, Bool.false_eq_true, if_false]
      cases hsome : (fs0 (check_path root_path row.audiocap_id format)).isSome
      · simp only [Bool.false_eq_true, if_false]
        exact ⟨by trivial, h⟩
      · simp only [if_true]
        unfold os_remove
        rw [hrf]
        simp only [Bool.false_eq_true, if_false]
        exact ⟨by trivial, h⟩

/-- A `cross_check_file` task never creates a file: pointwise, the
filesystem is unchanged or the path is gone. -/
theorem cross_check_file_fs_cases (rf : RemoveFails) (format root_path : String)
    (fs : FS) (row : Row) (p : String) :
    (cross_check_file rf format fs root_path row).2 p = fs p ∨
    (cross_check_file rf format fs root_path row).2 p = none := by
  unfold cross_check_file
  by_cases hval : is_valid_file fs (check_path root_path row.audiocap_id format) = true
  · rw [hval]
    simp only [if_true]
    cases pyInt row.audiocap_id <;> exact Or.inl (by trivial)
  · rw [Bool.not_eq_true] at hval
    rw [hval]
    simp only [Bool.false_eq_true, if_false]
    cases hsome : (fs (check_path root_path row.audiocap_id format)).isSome
    · simp only [Bool.false_eq_true, if_false]
      exact Or.inl (by trivial)
    · simp only [if_true]
      unfold os_remove
      cases hfail : rf (check_path root_path row.audiocap_id format)
      · simp only [Bool.false_eq_true, if_false]
        by_cases hp : p = check_path root_path row.audiocap_id format
        · exact Or.inr (by simp [hp])
        · exact Or.inl (by simp [hp])
      · simp only [if_true]
        exact Or.inl (by trivial)

/-- When the clip is invalid at batch start and the OS allows the deletion,
the task leaves no file at the clip path. -/
theorem cross_check_file_deletes (rf : RemoveFails) (format root_path : String)
    (fs : FS) (row : Row)
    (hval : is_valid_file fs (check_path root_path row.audiocap_id format) = false)
    (hrf : rf (check_path root_path row.audiocap_id format) = false) :
    (cross_check_file rf format fs root_path row).2
      (check_path root_path row.audiocap_id format) = none := by
  unfold cross_check_file
  rw [hval]
  simp only [Bool.false_eq_true, if_false]
  cases hsome : (fs (check_path root_path row.audiocap_id format)).isSome
  · simp only [Bool.false_eq_true, if_false]
    simpa [Option.isSome_iff_exists] using hsome
  · simp only [if_true]
    unfold os_remove
    rw [hrf]
    simp

/-- Along any schedule, the collected results are the per-row results
against the batch-start filesystem, tagged with their task index, and the
final filesystem still refines the batch-start one. -/
theorem run_sched_results (rf : RemoveFails) (format root_path : String)
    (rows : List Row) (fs0 : FS) :
    ∀ (sched : List Nat) (fs : FS), fs_refines rf fs0 fs →
      (run_sched rf format root_path rows sched fs).2
        = sched.filterMap (fun i => (rows[i]?).map
            (fun row => (i, (cross_check_file rf format fs0 root_path row).1)))
      ∧ fs_refines rf fs0 (run_sched rf format root_path rows sched fs).1 := by
  intro sched
  induction sched with
  | nil => exact fun fs h => ⟨rfl, h⟩
  | cons i rest ih =>
    intro fs h
    cases hrow : rows[i]? with
    | none =>
      have := ih fs h
      simpa [run_sched, hrow] using this
    | some row =>
      have hstep := cross_check_file_refines rf format root_path fs0 fs row h
      have := ih (cross_check_file rf format fs root_path row).2 hstep.2
      refine ⟨?_, ?_⟩
      · simp only [run_sched, hrow]
        rw [this.1, hstep.1]
        simp [List.filterMap_cons, hrow]
      · simp only [run_sched, hrow]
        exact this.2

/-- Once a path is gone it stays gone for the rest of the batch. -/
theorem run_sched_none (rf : RemoveFails) (format root_path : String)
    (rows : List Row) :
    ∀ (sched : List Nat) (fs : FS) (p : String), fs p = none →
      (run_sched rf format root_path rows sched fs).1 p = none := by
  intro sched
  induction sched with
  | nil => exact fun fs p h => h
  | cons i rest ih =>
    intro fs p h
    cases hrow : rows[i]? with
    | none => simpa [run_sched, hrow] using ih fs p h
    | some row =>
      simp only [run_sched, hrow]
      refine ih _ p ?_
      rcases cross_check_file_fs_cases rf format root_path fs row p with hc | hc
      · rw [hc, h]
      · exact hc

/-- Every scheduled row whose clip is invalid at batch start ends the batch
with no file at its clip path, provided the OS allows deletions. -/
theorem run_sched_deletes (rf : RemoveFails) (format root_path : String)
    (rows : List Row) (fs0 : FS) (hrf : ∀ p, rf p = false) :
    ∀ (sched : List Nat) (fs : FS), fs_refines rf fs0 fs →
      ∀ i row, i ∈ sched → rows[i]? = some row →
        is_valid_file fs0 (check_path root_path row.audiocap_id format) = false →
        (run_sched rf format root_path rows sched fs).1
          (check_path root_path row.audiocap_id format) = none := by
  intro sched
  induction sched with
  | nil => intro fs _ i row hi; exact absurd hi (List.not_mem_nil i)
  | cons j rest ih =>
    intro fs h i row hi hrow hval
    rcases List.mem_cons.mp hi with rfl | hi'
    · simp only [run_sched, hrow]
      refine run_sched_none rf format root_path rows rest _ _ ?_
      refine cross_check_file_deletes rf format root_path fs row ?_ (hrf _)
      rw [is_valid_file_of_refines h, hval]
    · cases hrowj : rows[j]? with
      | none =>
        simp only [run_sched, hrowj]
        exact ih fs h i row hi' hrow hval
      | some rowj =>
        simp only [run_sched, hrowj]
        exact ih _ (cross_check_file_refines rf format root_path fs0 fs rowj h).2
          i row hi' hrow hval

/-- Looking up a task index in the tagged batch output finds that task's
result, for any schedule containing the index. -/
theorem lookup_tagged {β : Type} (rows : List Row) (g : Row → β) :
    ∀ (sched : List Nat) (i : Nat) (row : Row), rows[i]? = some row → i ∈ sched →
      (sched.filterMap (fun j => (rows[j]?).map (fun rw => (j, g rw)))).lookup i
        = some (g row) := by
  intro sched
  induction sched with
  | nil => intro i row _ hi; exact absurd hi (List.not_mem_nil i)
  | cons j rest ih =>
    intro i row hrow hi
    cases hrowj : rows[j]? with
    | none =>
      have hij : i ≠ j := by
        intro hf
        rw [hf, hrowj] at hrow
        cases hrow
      rcases List.mem_cons.mp hi with hf | hi'
      · exact absurd hf hij
      · simpa [List.filterMap_cons, hrowj] using ih i row hrow hi'
    | some rowj =>
      by_cases hij : i = j
      · subst hij
        rw [hrow] at hrowj
        cases hrowj
        simp [List.filterMap_cons, hrow, List.lookup_cons]
      · rcases List.mem_cons.mp hi with hf | hi'
        · exact absurd hf hij
        · have hbeq : (i == j) = false := by simpa using hij
          simpa [List.filterMap_cons, hrowj, List.lookup_cons, hbeq]
            using ih i row hrow hi'

/-- For any schedule containing every row index, the batch results in task
order are the per-row results against the batch-start filesystem:
they do not depend on the schedule. -/
theorem sched_results_covering (rf : RemoveFails) (format root_path : String)
    (rows : List Row) (fs : FS) (sched : List Nat)
    (hcov : ∀ i < rows.length, i ∈ sched) :
    sched_results rf format root_path rows fs sched
      = (List.range rows.length).filterMap (fun i => (rows[i]?).map
          (fun row => (cross_check_file rf format fs root_path row).1)) := by
  unfold sched_results
  rw [(run_sched_results rf format root_path rows fs sched fs
        (fs_refines_refl rf fs)).1]
  refine List.filterMap_congr ?_
  intro i hi
  have hlt := List.mem_range.mp hi
  have hrow : rows[i]? = some rows[i] := List.getElem?_eq_getElem hlt
  rw [lookup_tagged rows _ sched i rows[i] hrow (hcov i hlt), hrow]
  rfl

/-! Generic list facts used to evaluate the batch output. -/

theorem range_filterMap_getElem {α β : Type} (l : List α) (g : α → β) :
    (List.range l.length).filterMap (fun i => (l[i]?).map g) = l.map g := by
  induction l with
  | nil => rfl
  | cons a t ih =>
    rw [List.length_cons, List.range_succ_eq_map, List.filterMap_cons]
    simp only [List.getElem?_cons_zero, Option.map_some', List.filterMap_map]
    have hfun : ((fun i => ((a :: t)[i]?).map g) ∘ Nat.succ)
        = fun i => (t[i]?).map g := by
      funext i
      simp [List.getElem?_cons_succ]
    rw [hfun, ih, List.map_cons]

theorem filterMap_ite_eq_map_filter {α β : Type} (p : α → Bool) (f : α → β) :
    ∀ l : List α,
      l.filterMap (fun a => if p a then some (f a) else none) = (l.filter p).map f := by
  intro l
  induction l with
  | nil => rfl
  | cons a t ih =>
    by_cases h : p a <;> simp [List.filterMap_cons, List.filter_cons, h, ih]

theorem filterMap_some_eq_map {α β : Type} (f : α → β) (l : List α) :
    l.filterMap (fun a => some (f a)) = l.map f := by
  induction l with
  | nil => rfl
  | cons a t ih => simp [List.filterMap_cons, ih]

/-- If `cross_check_split` produced an updated table, it is the filter of
the input table by membership of the id in the collected valid-id list —
in particular a sublist of the input table, in the original order, with
every original field. -/
theorem cross_check_split_sublist (rf : RemoveFails) (format root_path : String)
    (fs : FS) (rows upd : List Row) (fs' : FS)
    (h : cross_check_split rf format root_path fs rows = .ok (upd, fs')) :
    upd.Sublist rows := by
  unfold cross_check_split table_of_results at h
  cases hfe : first_error
      ((run_sched rf format root_path rows (List.range rows.length) fs).2.map Prod.snd) with
  | some e => rw [hfe] at h; cases h
  | none =>
    rw [hfe] at h
    simp only [Except.ok.injEq, Prod.mk.injEq] at h
    exact h.1 ▸ List.filter_sublist rows

/-- Claim C6: for every input table and every on-disk state, the updated
table produced by the reconcile stage is a subsequence of the input
table's rows (same rows, original order, all original fields); no row is
ever invented. -/
theorem C6_reconcile_monotone (rf : RemoveFails) (format root_path : String)
    (fs : FS) (rows upd : List Row) (fs' : FS)
    (h : cross_check_split rf format root_path fs rows = .ok (upd, fs')) :
    upd.Sublist rows :=
  cross_check_split_sublist rf format root_path fs rows upd fs' h

theorem C6_witness :
    (cross_check_split (fun _ => false) "wav" "r/"
        (fun p => if p = "r/1.wav" then some (.audio 3) else none)
        [⟨"1", "y", 0, "c"⟩]
      = .ok ([⟨"1", "y", 0, "c"⟩],
          (fun p => if p = "r/1.wav" then some (.audio 3) else none))) ∧
    List.Sublist [(⟨"1", "y", 0, "c"⟩ : Row)] [⟨"1", "y", 0, "c"⟩] := by
  refine ⟨by rfl, ?_⟩
  exact C6_reconcile_monotone (fun _ => false) "wav" "r/"
    (fun p => if p = "r/1.wav" then some (.audio 3) else none)
    [⟨"1", "y", 0, "c"⟩] [⟨"1", "y", 0, "c"⟩]
    (fun p => if p = "r/1.wav" then some (.audio 3) else none) (by rfl)

/-- Claim C7: for a fixed directory state, two reconcile invocations over
the same table under any two interleavings of the parallel per-row checks
(any two schedules covering every row index, duplicates and order free)
produce identical updated tables — the same row set in the same order, or
the same re-raised exception; the outcome depends only on the per-row
valid/invalid results at batch start. -/
theorem C7_reconcile_schedule_deterministic (rf : RemoveFails)
    (format root_path : String) (fs : FS) (rows : List Row)
    (sched1 sched2 : List Nat)
    (h1 : ∀ i < rows.length, i ∈ sched1) (h2 : ∀ i < rows.length, i ∈ sched2) :
    table_of_results rows (sched_results rf format root_path rows fs sched1)
      = table_of_results rows (sched_results rf format root_path rows fs sched2) := by
  rw [sched_results_covering rf format root_path rows fs sched1 h1,
      sched_results_covering rf format root_path rows fs sched2 h2]

theorem C7_witness :
    table_of_results [⟨"1", "y", 0, "c"⟩, ⟨"2", "z", 4, "d"⟩]
        (sched_results (fun _ => false) "wav" "r/"
          [⟨"1", "y", 0, "c"⟩, ⟨"2", "z", 4, "d"⟩]
          (fun p => if p = "r/1.wav" then some (.audio 3) else none) [0, 1])
      = table_of_results [⟨"1", "y", 0, "c"⟩, ⟨"2", "z", 4, "d"⟩]
        (sched_results (fun _ => false) "wav" "r/"
          [⟨"1", "y", 0, "c"⟩, ⟨"2", "z", 4, "d"⟩]
          (fun p => if p = "r/1.wav" then some (.audio 3) else none) [1, 0]) :=
  C7_reconcile_schedule_deterministic (fun _ => false) "wav" "r/"
    (fun p => if p = "r/1.wav" then some (.audio 3) else none)
    [⟨"1", "y", 0, "c"⟩, ⟨"2", "z", 4, "d"⟩] [0, 1] [1, 0]
    (by decide) (by decide)

/-!
Claim C1.  The claim as stated fails on the `int()`/`str()` round trip of
`cross_check_file`/`cross_check`: a numeral id with leading zeros is
changed by the round trip, so its row is dropped from the updated table
even though its clip file is valid.  The nearby statement that holds
restricts the ids to canonical decimal numerals.
-/

/-- A canonical decimal numeral: `str(int(s)) == s` in Python terms. -/
def canonical_id (s : String) : Bool :=
  match pyInt s with
  | some n => pyStr n == s
  | none => false

/-- No batch exception when every task result is a success. -/
theorem first_error_map_ok (l : List Row) (g : Row → Option Nat) :
    first_error (l.map (fun r => .ok (g r))) = none := by
  unfold first_error
  induction l with
  | nil => rfl
  | cons a t ih =>
    rw [List.map_cons, List.findSome?_cons]
    exact ih

/-- The successes of an all-success batch. -/
theorem ok_results_map_ok (l : List Row) (g : Row → Option Nat) :
    ok_results (l.map (fun r => .ok (g r))) = l.map g := by
  unfold ok_results
  rw [List.filterMap_map]
  exact filterMap_some_eq_map g l

/-- The batch results in task order of the sequential schedule are the
per-row `cross_check_file` results against the batch-start filesystem. -/
theorem seq_results_eq (rf : RemoveFails) (format root_path : String)
    (fs : FS) (rows : List Row) :
    (run_sched rf format root_path rows (List.range rows.length) fs).2.map Prod.snd
      = rows.map (fun row => (cross_check_file rf format fs root_path row).1) := by
  rw [(run_sched_results rf format root_path rows fs (List.range rows.length) fs
        (fs_refines_refl rf fs)).1]
  rw [List.map_filterMap]
  have hfun : (fun (i : Nat) => Option.map Prod.snd ((rows[i]?).map
        (fun row => (i, (cross_check_file rf format fs root_path row).1))))
      = fun (i : Nat) => (rows[i]?).map
          (fun row => (cross_check_file rf format fs root_path row).1) := by
    funext i
    cases rows[i]? <;> rfl
  rw [hfun]
  exact range_filterMap_getElem rows _

/-- Claim C1, amended: for every split table whose sample ids are canonical
decimal numerals, and a run in which the OS allows every deletion,
`cross_check_split` returns exactly the rows of the input table whose
computed clip path passes the validity check (in the original order, with
every original field), and for every row whose clip is invalid, the final
filesystem holds no file at that row's clip path — in particular every
invalid-but-present file has been deleted. -/
theorem C1_reconcile_valid_rows (rf : RemoveFails) (format root_path : String)
    (fs : FS) (rows : List Row)
    (hrf : ∀ p, rf p = false)
    (hcanon : ∀ r ∈ rows, canonical_id r.audiocap_id = true) :
    cross_check_split rf format root_path fs rows
      = .ok (rows.filter
              (fun r => is_valid_file fs (check_path root_path r.audiocap_id format)),
             (run_sched rf format root_path rows (List.range rows.length) fs).1)
    ∧ ∀ r ∈ rows,
        is_valid_file fs (check_path root_path r.audiocap_id format) = false →
        (run_sched rf format root_path rows (List.range rows.length) fs).1
          (check_path root_path r.audiocap_id format) = none := by
  have hpoint : ∀ r ∈ rows,
      (cross_check_file rf format fs root_path r).1
        = .ok (if is_valid_file fs (check_path root_path r.audiocap_id format)
                then pyInt r.audiocap_id else none) := by
    intro r hr
    unfold cross_check_file
    by_cases hval : is_valid_file fs (check_path root_path r.audiocap_id format) = true
    · rw [hval]
      simp only [if_true]
      have := hcanon r hr
      unfold canonical_id at this
      cases hpi : pyInt r.audiocap_id with
      | none => rw [hpi] at this; cases this
      | some n => simp [hpi]
    · rw [Bool.not_eq_true] at hval
      rw [hval]
      simp only [Bool.false_eq_true, if_false]
      cases hsome : (fs (check_path root_path r.audiocap_id format)).isSome
      · simp
      · simp only [if_true]
        unfold os_remove
        rw [hrf]
        simp
  have hresults : (run_sched rf format root_path rows (List.range rows.length) fs).2.map Prod.snd
      = rows.map (fun r => .ok (if is_valid_file fs (check_path root_path r.audiocap_id format)
          then pyInt r.audiocap_id else none)) := by
    rw [seq_results_eq]
    exact List.map_congr_left hpoint
  have hids : list_of_ids (ok_results
        ((run_sched rf format root_path rows (List.range rows.length) fs).2.map Prod.snd))
      = (rows.filter
          (fun r => is_valid_file fs (check_path root_path r.audiocap_id format))).map
          (fun r => r.audiocap_id) := by
    rw [hresults, ok_results_map_ok]
    unfold list_of_ids
    rw [List.filterMap_map]
    have hfun : ∀ r ∈ rows,
        ((fun x => Option.map pyStr x) ∘ (fun r =>
            if is_valid_file fs (check_path root_path r.audiocap_id format)
            then pyInt r.audiocap_id else none)) r
          = (fun r => if is_valid_file fs (check_path root_path r.audiocap_id format)
              then some r.audiocap_id else none) r := by
      intro r hr
      by_cases hval : is_valid_file fs (check_path root_path r.audiocap_id format) = true
      · have := hcanon r hr
        unfold canonical_id at this
        cases hpi : pyInt r.audiocap_id with
        | none => rw [hpi] at this; cases this
        | some n =>
          rw [hpi] at this
          have hs : pyStr n = r.audiocap_id := by simpa using this
          simp [hval, hpi, hs]
      · rw [Bool.not_eq_true] at hval
        simp [hval]
    rw [List.filterMap_congr hfun]
    exact filterMap_ite_eq_map_filter _ _ rows
  have hcontains : ∀ r ∈ rows,
      (((rows.filter (fun r => is_valid_file fs (check_path root_path r.audiocap_id format))).map
        (fun r => r.audiocap_id)).contains r.audiocap_id)
        = is_valid_file fs (check_path root_path r.audiocap_id format) := by
    intro r hr
    rw [show (((rows.filter
          (fun r => is_valid_file fs (check_path root_path r.audiocap_id format))).map
          (fun r => r.audiocap_id)).contains r.audiocap_id)
        = decide (r.audiocap_id ∈ (rows.filter
            (fun r => is_valid_file fs (check_path root_path r.audiocap_id format))).map
            (fun r => r.audiocap_id)) from List.elem_eq_mem _ _]
    cases hval : is_valid_file fs (check_path root_path r.audiocap_id format) with
    | true =>
      have hmem : r.audiocap_id ∈ (rows.filter
          (fun r => is_valid_file fs (check_path root_path r.audiocap_id format))).map
          (fun r => r.audiocap_id) :=
        List.mem_map.mpr ⟨r, List.mem_filter.mpr ⟨hr, hval⟩, rfl⟩
      exact decide_eq_true hmem
    | false =>
      refine decide_eq_false ?_
      intro hmem
      rcases List.mem_map.mp hmem with ⟨r', hr', hid⟩
      have hval' := (List.mem_filter.mp hr').2
      rw [hid] at hval'
      rw [hval] at hval'
      cases hval'
  refine ⟨?_, ?_⟩
  · unfold cross_check_split table_of_results
    rw [hresults, first_error_map_ok]
    rw [← hresults, hids]
    have : rows.filter (fun r =>
        (((rows.filter (fun r => is_valid_file fs (check_path root_path r.audiocap_id format))).map
          (fun r => r.audiocap_id)).contains r.audiocap_id))
        = rows.filter (fun r => is_valid_file fs (check_path root_path r.audiocap_id format)) :=
      List.filter_congr hcontains
    rw [this]
  · intro r hr hval
    rcases List.mem_iff_getElem?.mp hr with ⟨i, hi⟩
    have hlt : i < rows.length := by
      rcases List.getElem?_eq_some.mp hi with ⟨h, _⟩
      exact h
    exact run_sched_deletes rf format root_path rows fs hrf
      (List.range rows.length) fs (fs_refines_refl rf fs) i r
      (List.mem_range.mpr hlt) hi hval

/-- Claim C1 as stated is refuted by a one-row table whose sample id `"007"`
has a valid clip file: the clip passes the validity check, yet the updated
table is empty because the `int`/`str` round trip turns `"007"` into `"7"`. -/
theorem C1_counterexample :
    is_valid_file (fun p => if p = "r/007.wav" then some (.audio 1) else none)
        (check_path "r/" "007" "wav") = true ∧
    (cross_check_split (fun _ => false) "wav" "r/"
        (fun p => if p = "r/007.wav" then some (.audio 1) else none)
        [⟨"007", "y", 0, "c"⟩]).map Prod.fst = .ok [] :=
  ⟨by rfl, by rfl⟩

theorem C1_witness :
    ((fun p => if p = ("r/" : String) ++ "1" ++ "." ++ "wav" then
        some (FileContent.audio 1) else none) : FS) (check_path "r/" "2" "wav") = none ∧
    cross_check_split (fun _ => false) "wav" "r/"
        (fun p => if p = ("r/" : String) ++ "1" ++ "." ++ "wav" then
          some (FileContent.audio 1) else none)
        [⟨"1", "y", 0, "c"⟩, ⟨"2", "z", 4, "d"⟩]
      = .ok ([⟨"1", "y", 0, "c"⟩],
          (run_sched (fun _ => false) "wav" "r/"
            [⟨"1", "y", 0, "c"⟩, ⟨"2", "z", 4, "d"⟩] (List.range 2)
            (fun p => if p = ("r/" : String) ++ "1" ++ "." ++ "wav" then
              some (FileContent.audio 1) else none)).1) := by
  have h := C1_reconcile_valid_rows (fun _ => false) "wav" "r/"
    (fun p => if p = ("r/" : String) ++ "1" ++ "." ++ "wav" then
      some (FileContent.audio 1) else none)
    [⟨"1", "y", 0, "c"⟩, ⟨"2", "z", 4, "d"⟩]
    (fun _ => rfl) (by decide)
  refine ⟨?_, ?_⟩
  · rfl
  · rw [h.1]
    rfl

/-- Claim C9: the implicit precondition on sample ids.  With a non-numeric
sample id whose clip file is valid, `int(audiocaps_id)` raises
`ValueError` and the exception escapes the reconcile batch; with a
leading-zero numeral id, the `int`/`str` round trip changes the id
(`"070"` becomes `"70"`), so the row is excluded from the updated table
even though its clip file passes the validity check. -/
theorem C9_id_precondition :
    is_valid_file (fun p => if p = "r/xyz.wav" then some (.audio 5) else none)
        (check_path "r/" "xyz" "wav") = true ∧
    cross_check_split (fun _ => false) "wav" "r/"
        (fun p => if p = "r/xyz.wav" then some (.audio 5) else none)
        [⟨"xyz", "y", 0, "c"⟩] = .error .valueError ∧
    pyInt "070" = some 70 ∧
    pyStr 70 = "70" ∧
    is_valid_file (fun p => if p = "r/070.wav" then some (.audio 2) else none)
        (check_path "r/" "070" "wav") = true ∧
    (cross_check_split (fun _ => false) "wav" "r/"
        (fun p => if p = "r/070.wav" then some (.audio 2) else none)
        [⟨"070", "z", 1, "d"⟩]).map Prod.fst = .ok [] :=
  ⟨by rfl, by rfl, by rfl, by rfl, by rfl, by rfl⟩

/-- Claim C2 fails on the code: `download_file` derives the artifact
extension through `format_dict` (vorbis becomes `.ogg`), while
`cross_check_file` appends the raw format name (`.vorbis`), so for the
(default) vorbis format the fetch stage and the reconcile stage compute
different paths for the same row.  For mp3, m4a and wav the two paths
agree.  At the failing input, the fetched artifact `r/42.ogg` is valid on
disk, yet reconcile reports the row invalid (it checked `r/42.vorbis`),
drops it, and leaves the artifact undeleted. -/
theorem C2_format_extension_mismatch :
    format_dict.lookup "vorbis" = some "ogg" ∧
    download_target "r/" "42" "ogg" = "r/42.ogg" ∧
    check_path "r/" "42" "vorbis" = "r/42.vorbis" ∧
    ("r/42.ogg" : String) ≠ "r/42.vorbis" ∧
    download_target "r/" "42" "mp3" = check_path "r/" "42" "mp3" ∧
    download_target "r/" "42" "m4a" = check_path "r/" "42" "m4a" ∧
    download_target "r/" "42" "wav" = check_path "r/" "42" "wav" ∧
    is_valid_file (fun p => if p = "r/42.ogg" then some (.audio 100) else none)
        "r/42.ogg" = true ∧
    (cross_check_split (fun _ => false) "vorbis" "r/"
        (fun p => if p = "r/42.ogg" then some (.audio 100) else none)
        [⟨"42", "y", 0, "c"⟩]).map Prod.fst = .ok [] ∧
    (cross_check_file (fun _ => false) "vorbis"
        (fun p => if p = "r/42.ogg" then some (.audio 100) else none)
        "r/" ⟨"42", "y", 0, "c"⟩).2 "r/42.ogg" = some (.audio 100) :=
  ⟨by rfl, by rfl, by rfl, by decide, by rfl, by rfl, by rfl, by rfl,
   by rfl, by rfl⟩

/-- Claim C5: `is_valid_file` returns false when no file exists at the
path; false when decoding raises (the exception is absorbed by the
function — by construction it is total and returns a `Bool` to its
caller); false when decoding succeeds with zero sample frames; and true
otherwise. -/
theorem C5_is_valid_file_spec (fs : FS) (path : String) :
    (fs path = none → is_valid_file fs path = false) ∧
    (fs path = some .corrupt → is_valid_file fs path = false) ∧
    (fs path = some (.audio 0) → is_valid_file fs path = false) ∧
    (∀ frames, frames ≠ 0 → fs path = some (.audio frames) →
      is_valid_file fs path = true) := by
  refine ⟨?_, ?_, ?_, ?_⟩
  · intro h
    unfold is_valid_file
    rw [h]
  · intro h
    unfold is_valid_file
    rw [h]
  · intro h
    unfold is_valid_file
    rw [h]
    rfl
  · intro frames hf h
    unfold is_valid_file
    rw [h]
    simp [hf]

theorem C5_witness :
    is_valid_file (fun p => if p = "a.wav" then some (.audio 4)
        else if p = "b.wav" then some FileContent.corrupt
        else if p = "c.wav" then some (.audio 0) else none) "missing.wav" = false ∧
    is_valid_file (fun p => if p = "a.wav" then some (.audio 4)
        else if p = "b.wav" then some FileContent.corrupt
        else if p = "c.wav" then some (.audio 0) else none) "b.wav" = false ∧
    is_valid_file (fun p => if p = "a.wav" then some (.audio 4)
        else if p = "b.wav" then some FileContent.corrupt
        else if p = "c.wav" then some (.audio 0) else none) "c.wav" = false ∧
    is_valid_file (fun p => if p = "a.wav" then some (.audio 4)
        else if p = "b.wav" then some FileContent.corrupt
        else if p = "c.wav" then some (.audio 0) else none) "a.wav" = true :=
  ⟨(C5_is_valid_file_spec _ "missing.wav").1 (by rfl),
   (C5_is_valid_file_spec _ "b.wav").2.1 (by rfl),
   (C5_is_valid_file_spec _ "c.wav").2.2.1 (by rfl),
   (C5_is_valid_file_spec _ "a.wav").2.2.2 4 (by decide) (by rfl)⟩

/-!
Claim C3.  Conversion failures and decode failures are indeed isolated per
row, but `os.remove` in `cross_check_file` is not wrapped in any handler,
so a deletion the OS refuses raises and aborts the reconcile batch: the
claim as stated fails on that third failure kind.
-/

/-- Claim C3 as stated is refuted: for a known-invalid file (a corrupt
clip) whose deletion the OS refuses, the `OSError` of `os.remove` escapes
`cross_check_file` and aborts the reconcile batch. -/
theorem C3_counterexample :
    is_valid_file (fun p => if p = "r/9.wav" then some FileContent.corrupt else none)
        (check_path "r/" "9" "wav") = false ∧
    cross_check_split (fun p => p == "r/9.wav") "wav" "r/"
        (fun p => if p = "r/9.wav" then some FileContent.corrupt else none)
        [⟨"9", "y", 0, "c"⟩] = .error .osError :=
  ⟨by rfl, by rfl⟩

/-- Claim C3, amended: a per-row conversion failure or decode failure is
never raised to the orchestrator — `download_file` returns normally
whatever the converter does, and `cross_check_file` absorbs a decode
failure, returning `None` after deleting the file — but a filesystem error
while deleting a known-invalid file is raised and aborts the reconcile
batch. -/
theorem C3_per_row_failures (conv : Conv) (format ext : String) (quality : Int)
    (fs : FS) (root_path ytid : String) (s e : Int) (audiocaps_id : String)
    (rf : RemoveFails) (row : Row)
    (hfmt : format_dict.lookup format = some ext) :
    (download_file conv format quality fs root_path ytid s e audiocaps_id).isOk = true ∧
    (fs (check_path root_path row.audiocap_id format) = some .corrupt →
      rf (check_path root_path row.audiocap_id format) = false →
      (cross_check_file rf format fs root_path row).1 = .ok none) ∧
    (fs (check_path root_path row.audiocap_id format) = some .corrupt →
      rf (check_path root_path row.audiocap_id format) = true →
      (cross_check_file rf format fs root_path row).1 = .error .osError) := by
  refine ⟨?_, ?_, ?_⟩
  · unfold download_file
    rw [hfmt]
    cases hpres : (fs (download_target root_path audiocaps_id ext)).isSome <;>
      simp [Except.isOk, Except.toBool, hpres]
  · intro hc hrf
    unfold cross_check_file
    have hval : is_valid_file fs (check_path root_path row.audiocap_id format) = false := by
      unfold is_valid_file
      rw [hc]
    rw [hval, hc]
    unfold os_remove
    rw [hrf]
    rfl
  · intro hc hrf
    unfold cross_check_file
    have hval : is_valid_file fs (check_path root_path row.audiocap_id format) = false := by
      unfold is_valid_file
      rw [hc]
    rw [hval, hc]
    unfold os_remove
    rw [hrf]
    rfl

theorem C3_witness :
    (download_file (fun _ s => s) "wav" 5 (fun _ => none) "r/" "yt" 0 10 "7").isOk = true ∧
    (cross_check_file (fun _ => false) "wav"
        (fun p => if p = "r/7.wav" then some FileContent.corrupt else none)
        "r/" ⟨"7", "yt", 0, "c"⟩).1 = .ok none ∧
    (cross_check_file (fun _ => true) "wav"
        (fun p => if p = "r/7.wav" then some FileContent.corrupt else none)
        "r/" ⟨"7", "yt", 0, "c"⟩).1 = .error .osError :=
  ⟨(C3_per_row_failures (fun _ s => s) "wav" "wav" 5 (fun _ => none) "r/" "yt"
      0 10 "7" (fun _ => false) ⟨"7", "yt", 0, "c"⟩ (by rfl)).1,
   (C3_per_row_failures (fun _ s => s) "wav" "wav" 5
      (fun p => if p = "r/7.wav" then some FileContent.corrupt else none)
      "r/" "yt" 0 10 "7" (fun _ => false) ⟨"7", "yt", 0, "c"⟩ (by rfl)).2.1
      (by rfl) (by rfl),
   (C3_per_row_failures (fun _ s => s) "wav" "wav" 5
      (fun p => if p = "r/7.wav" then some FileContent.corrupt else none)
      "r/" "yt" 0 10 "7" (fun _ => true) ⟨"7", "yt", 0, "c"⟩ (by rfl)).2.2
      (by rfl) (by rfl)⟩

/-!
Claim C4.  Fetch idempotence: the skip-if-present branch of
`download_file`, lifted to whole fetch batches.
-/

/-- A fetch batch calls `download_file` on exactly the rows of the table. -/
theorem run_download_split_calls (conv : Conv) (format : String) (quality : Int)
    (root_path : String) :
    ∀ (rows : List Row) (fs fs' : FS) (k : Nat) (calls : List Row),
      run_download_split conv format quality root_path fs rows = .ok (fs', k, calls) →
      calls = rows := by
  intro rows
  induction rows with
  | nil =>
    intro fs fs' k calls h
    simp only [run_download_split, Except.ok.injEq, Prod.mk.injEq] at h
    exact h.2.2.symm
  | cons row rest ih =>
    intro fs fs' k calls h
    cases hd : download_file conv format quality fs root_path row.youtube_id
        row.start_time (row.start_time + 10) row.audiocap_id with
    | error e => simp [run_download_split, hd] at h
    | ok out =>
      cases hrec : run_download_split conv format quality root_path out.1 rest with
      | error e => simp [run_download_split, hd, hrec] at h
      | ok out2 =>
        simp only [run_download_split, hd, hrec, Except.ok.injEq, Prod.mk.injEq] at h
        rw [← h.2.2, ih out.1 out2.1 out2.2.1 out2.2.2 (by rw [hrec])]

/-- A fetch batch never removes a file, provided the converter does not
(`hmono`). -/
theorem run_download_split_mono (conv : Conv) (format ext : String)
    (quality : Int) (root_path : String)
    (hfmt : format_dict.lookup format = some ext)
    (hmono : ∀ req fsx q, (fsx q).isSome = true → ((conv req fsx) q).isSome = true) :
    ∀ (rows : List Row) (fs fs' : FS) (k : Nat) (calls : List Row),
      run_download_split conv format quality root_path fs rows = .ok (fs', k, calls) →
      ∀ q, (fs q).isSome = true → (fs' q).isSome = true := by
  intro rows
  induction rows with
  | nil =>
    intro fs fs' k calls h q hq
    simp only [run_download_split, Except.ok.injEq, Prod.mk.injEq] at h
    rw [← h.1]
    exact hq
  | cons row rest ih =>
    intro fs fs' k calls h q hq
    cases hpres : (fs (download_target root_path row.audiocap_id ext)).isSome with
    | true =>
      cases hrec : run_download_split conv format quality root_path fs rest with
      | error e => simp [run_download_split, download_file, hfmt, hpres, hrec] at h
      | ok out2 =>
        simp only [run_download_split, download_file, hfmt, hpres, if_true, hrec,
          Except.ok.injEq, Prod.mk.injEq] at h
        rw [← h.1]
        exact ih fs out2.1 out2.2.1 out2.2.2 (by rw [hrec]) q hq
    | false =>
      cases hrec : run_download_split conv format quality root_path
          (conv { ytid := row.youtube_id, start_seconds := row.start_time,
                  end_seconds := row.start_time + 10, format := format,
                  quality := quality,
                  target := download_target root_path row.audiocap_id ext } fs)
          rest with
      | error e => simp [run_download_split, download_file, hfmt, hpres, hrec] at h
      | ok out2 =>
        simp only [run_download_split, download_file, hfmt, hpres,
          Bool.false_eq_true, if_false, hrec, Except.ok.injEq, Prod.mk.injEq] at h
        rw [← h.1]
        refine ih _ out2.1 out2.2.1 out2.2.2 (by rw [hrec]) q ?_
        exact hmono _ fs q hq

/-- After a fetch batch with a converter that always produces its
destination file, every row's destination exists. -/
theorem run_download_split_creates (conv : Conv) (format ext : String)
    (quality : Int) (root_path : String)
    (hfmt : format_dict.lookup format = some ext)
    (hcreate : ∀ req fsx, ((conv req fsx) req.target).isSome = true)
    (hmono : ∀ req fsx q, (fsx q).isSome = true → ((conv req fsx) q).isSome = true) :
    ∀ (rows : List Row) (fs fs' : FS) (k : Nat) (calls : List Row),
      run_download_split conv format quality root_path fs rows = .ok (fs', k, calls) →
      ∀ r ∈ rows, (fs' (download_target root_path r.audiocap_id ext)).isSome = true := by
  intro rows
  induction rows with
  | nil =>
    intro fs fs' k calls _ r hr
    exact absurd hr (List.not_mem_nil r)
  | cons row rest ih =>
    intro fs fs' k calls h r hr
    cases hpres : (fs (download_target root_path row.audiocap_id ext)).isSome with
    | true =>
      cases hrec : run_download_split conv format quality root_path fs rest with
      | error e => simp [run_download_split, download_file, hfmt, hpres, hrec] at h
      | ok out2 =>
        simp only [run_download_split, download_file, hfmt, hpres, if_true, hrec,
          Except.ok.injEq, Prod.mk.injEq] at h
        rcases List.mem_cons.mp hr with rfl | hr'
        · rw [← h.1]
          exact run_download_split_mono conv format ext quality root_path hfmt hmono
            rest fs out2.1 out2.2.1 out2.2.2 (by rw [hrec]) _ hpres
        · rw [← h.1]
          exact ih fs out2.1 out2.2.1 out2.2.2 (by rw [hrec]) r hr'
    | false =>
      cases hrec : run_download_split conv format quality root_path
          (conv { ytid := row.youtube_id, start_seconds := row.start_time,
                  end_seconds := row.start_time + 10, format := format,
                  quality := quality,
                  target := download_target root_path row.audiocap_id ext } fs)
          rest with
      | error e => simp [run_download_split, download_file, hfmt, hpres, hrec] at h
      | ok out2 =>
        simp only [run_download_split, download_file, hfmt, hpres,
          Bool.false_eq_true, if_false, hrec, Except.ok.injEq, Prod.mk.injEq] at h
        rcases List.mem_cons.mp hr with rfl | hr'
        · rw [← h.1]
          refine run_download_split_mono conv format ext quality root_path hfmt hmono
            rest _ out2.1 out2.2.1 out2.2.2 (by rw [hrec]) _ ?_
          exact hcreate ⟨r.youtube_id, r.start_time, r.start_time + 10, format,
            quality, download_target root_path r.audiocap_id ext⟩ fs
        · rw [← h.1]
          exact ih _ out2.1 out2.2.1 out2.2.2 (by rw [hrec]) r hr'

/-- A fetch batch over a table all of whose destinations already exist
performs zero converter invocations and leaves the filesystem unchanged. -/
theorem run_download_split_all_present (conv : Conv) (format ext : String)
    (quality : Int) (root_path : String)
    (hfmt : format_dict.lookup format = some ext) :
    ∀ (rows : List Row) (fs : FS),
      (∀ r ∈ rows, (fs (download_target root_path r.audiocap_id ext)).isSome = true) →
      run_download_split conv format quality root_path fs rows = .ok (fs, 0, rows) := by
  intro rows
  induction rows with
  | nil => intro fs _; rfl
  | cons row rest ih =>
    intro fs hall
    have hhead := hall row (List.mem_cons_self row rest)
    have htail := ih fs (fun r hr => hall r (List.mem_cons_of_mem row hr))
    simp [run_download_split, download_file, hfmt, hhead, htail]

/-- Claim C4: fetch is idempotent.  Per row, when a file already exists at
the computed destination, `download_file` returns without invoking the
converter; consequently, after a fetch batch with a converter that places
a file at its destination (and removes nothing), a second fetch batch
over the same table with no interim filesystem change performs zero
converter invocations and changes nothing. -/
theorem C4_fetch_idempotent (conv : Conv) (format ext : String) (quality : Int)
    (root_path : String) (rows : List Row) (fs fs1 : FS) (k : Nat) (calls : List Row)
    (hfmt : format_dict.lookup format = some ext)
    (hcreate : ∀ req fsx, ((conv req fsx) req.target).isSome = true)
    (hmono : ∀ req fsx q, (fsx q).isSome = true → ((conv req fsx) q).isSome = true)
    (hrun : run_download_split conv format quality root_path fs rows = .ok (fs1, k, calls)) :
    (∀ (fsx : FS) (ytid : String) (s e : Int) (id : String),
      (fsx (download_target root_path id ext)).isSome = true →
      download_file conv format quality fsx root_path ytid s e id = .ok (fsx, false)) ∧
    run_download_split conv format quality root_path fs1 rows = .ok (fs1, 0, rows) := by
  refine ⟨?_, ?_⟩
  · intro fsx ytid s e id hpres
    unfold download_file
    rw [hfmt]
    simp only [hpres, if_true]
  · exact run_download_split_all_present conv format ext quality root_path hfmt rows fs1
      (run_download_split_creates conv format ext quality root_path hfmt hcreate hmono
        rows fs fs1 k calls hrun)

theorem C4_witness :
    run_download_split
        (fun req fsx => fun q => if q = req.target then some (.audio 1) else fsx q)
        "wav" 5 "r/"
        (fun q => if q = ("r/" : String) ++ "1" ++ "." ++ "wav"
          then some (FileContent.audio 1) else (fun _ => none : FS) q)
        [⟨"1", "y", 0, "c"⟩] = .ok
        ((fun q => if q = ("r/" : String) ++ "1" ++ "." ++ "wav"
          then some (FileContent.audio 1) else (fun _ => none : FS) q), 0,
         [⟨"1", "y", 0, "c"⟩]) :=
  (C4_fetch_idempotent
    (fun req fsx => fun q => if q = req.target then some (.audio 1) else fsx q)
    "wav" "wav" 5 "r/" [⟨"1", "y", 0, "c"⟩] (fun _ => none)
    (fun q => if q = ("r/" : String) ++ "1" ++ "." ++ "wav"
      then some (FileContent.audio 1) else (fun _ => none : FS) q)
    1 [⟨"1", "y", 0, "c"⟩] (by rfl)
    (fun req fsx => by simp)
    (fun req fsx q hq => by
      by_cases hq' : q = req.target
      · simp [hq']
      · simpa [hq'] using hq)
    (by rfl)).2

/-!
Claim C8.  Persistence order of `cross_check`: the three reconciliations
complete before any CSV write, and each write targets `root/{split}.csv`
with `index=False` and the pandas default header.
-/

/-- Every CSV write in the event list occurs strictly after the
`reconciled` event of its split. -/
def write_after_reconcile (events : List Event) : Prop :=
  ∀ (j : Nat) (s p : String) (rws : List Row) (hd ix : Bool),
    events[j]? = some (Event.wroteCsv s p rws hd ix) →
    ∃ i : Nat, i < j ∧ events[i]? = some (Event.reconciled s)

/-- The fixed event shape of a successful `cross_check`: three
reconciliations followed by three CSV writes, each write after the
reconciliation of its split. -/
theorem write_after_reconcile_canonical (root_path : String) (a b c : List Row) :
    write_after_reconcile [.reconciled "train", .reconciled "val", .reconciled "test",
      .wroteCsv "train" (root_path ++ "/train.csv") a true false,
      .wroteCsv "val" (root_path ++ "/val.csv") b true false,
      .wroteCsv "test" (root_path ++ "/test.csv") c true false] := by
  unfold write_after_reconcile
  intro j s p rws hd ix hj
  match j with
  | 0 => simp at hj
  | 1 => simp at hj
  | 2 => simp at hj
  | 3 =>
    simp only [List.getElem?_cons_succ, List.getElem?_cons_zero,
      Option.some.injEq, Event.wroteCsv.injEq] at hj
    exact ⟨0, by omega, by rw [← hj.1]; rfl⟩
  | 4 =>
    simp only [List.getElem?_cons_succ, List.getElem?_cons_zero,
      Option.some.injEq, Event.wroteCsv.injEq] at hj
    exact ⟨1, by omega, by rw [← hj.1]; rfl⟩
  | 5 =>
    simp only [List.getElem?_cons_succ, List.getElem?_cons_zero,
      Option.some.injEq, Event.wroteCsv.injEq] at hj
    exact ⟨2, by omega, by rw [← hj.1]; rfl⟩
  | n + 6 => simp at hj

/-- Claim C8: on a successful run, the three reconciled metadata tables
are persisted to `root/train.csv`, `root/val.csv` and `root/test.csv`
with a header row and no index column, and every write event occurs only
after the reconciliation of the corresponding split has completed (in the
code, after all three reconciliations). -/
theorem C8_persist_after_reconcile (rf : RemoveFails) (format root_path : String)
    (fs : FS) (train_df val_df test_df ut uv ute : List Row) (fs' : FS)
    (events : List Event)
    (h : cross_check rf format root_path fs train_df val_df test_df
          = .ok (ut, uv, ute, fs', events)) :
    events = [.reconciled "train", .reconciled "val", .reconciled "test",
      .wroteCsv "train" (root_path ++ "/train.csv") ut true false,
      .wroteCsv "val" (root_path ++ "/val.csv") uv true false,
      .wroteCsv "test" (root_path ++ "/test.csv") ute true false] ∧
    write_after_reconcile events := by
  cases h1 : cross_check_split rf format (root_path ++ "/train/") fs train_df with
  | error e => simp [cross_check, h1] at h
  | ok o1 =>
    cases h2 : cross_check_split rf format (root_path ++ "/val/") o1.2 val_df with
    | error e => simp [cross_check, h1, h2] at h
    | ok o2 =>
      cases h3 : cross_check_split rf format (root_path ++ "/test/") o2.2 test_df with
      | error e => simp [cross_check, h1, h2, h3] at h
      | ok o3 =>
        simp only [cross_check, h1, h2, h3, Except.ok.injEq, Prod.mk.injEq] at h
        obtain ⟨hu1, hu2, hu3, hfs, hev⟩ := h
        subst hu1
        subst hu2
        subst hu3
        subst hev
        exact ⟨rfl, write_after_reconcile_canonical root_path o1.1 o2.1 o3.1⟩

theorem C8_witness :
    ([Event.reconciled "train", .reconciled "val", .reconciled "test",
      .wroteCsv "train" ("r" ++ "/train.csv") [] true false,
      .wroteCsv "val" ("r" ++ "/val.csv") [] true false,
      .wroteCsv "test" ("r" ++ "/test.csv") [] true false]
      = [Event.reconciled "train", .reconciled "val", .reconciled "test",
         .wroteCsv "train" ("r" ++ "/train.csv") [] true false,
         .wroteCsv "val" ("r" ++ "/val.csv") [] true false,
         .wroteCsv "test" ("r" ++ "/test.csv") [] true false]) ∧
    write_after_reconcile [Event.reconciled "train", .reconciled "val", .reconciled "test",
      .wroteCsv "train" ("r" ++ "/train.csv") [] true false,
      .wroteCsv "val" ("r" ++ "/val.csv") [] true false,
      .wroteCsv "test" ("r" ++ "/test.csv") [] true false] :=
  C8_persist_after_reconcile (fun _ => false) "wav" "r" (fun _ => none)
    [] [] [] [] [] [] (fun _ => none)
    [Event.reconciled "train", .reconciled "val", .reconciled "test",
      .wroteCsv "train" ("r" ++ "/train.csv") [] true false,
      .wroteCsv "val" ("r" ++ "/val.csv") [] true false,
      .wroteCsv "test" ("r" ++ "/test.csv") [] true false] (by rfl)

/-!
Claim C10.  `cross_check` replaces the object's split tables; a second
`download` on the same object iterates only the survivors.
-/

/-- On a successful `cross_check`, each updated table is a sublist of the
corresponding input table. -/
theorem cross_check_sublists (rf : RemoveFails) (format root_path : String)
    (fs : FS) (train_df val_df test_df ut uv ute : List Row) (fs' : FS)
    (events : List Event)
    (h : cross_check rf format root_path fs train_df val_df test_df
          = .ok (ut, uv, ute, fs', events)) :
    ut.Sublist train_df ∧ uv.Sublist val_df ∧ ute.Sublist test_df := by
  cases h1 : cross_check_split rf format (root_path ++ "/train/") fs train_df with
  | error e => simp [cross_check, h1] at h
  | ok o1 =>
    cases h2 : cross_check_split rf format (root_path ++ "/val/") o1.2 val_df with
    | error e => simp [cross_check, h1, h2] at h
    | ok o2 =>
      cases h3 : cross_check_split rf format (root_path ++ "/test/") o2.2 test_df with
      | error e => simp [cross_check, h1, h2, h3] at h
      | ok o3 =>
        simp only [cross_check, h1, h2, h3, Except.ok.injEq, Prod.mk.injEq] at h
        obtain ⟨hu1, hu2, hu3, _, _⟩ := h
        refine ⟨hu1 ▸ ?_, hu2 ▸ ?_, hu3 ▸ ?_⟩
        · exact cross_check_split_sublist rf format (root_path ++ "/train/") fs
            train_df o1.1 o1.2 (by rw [h1])
        · exact cross_check_split_sublist rf format (root_path ++ "/val/") o1.2
            val_df o2.1 o2.2 (by rw [h2])
        · exact cross_check_split_sublist rf format (root_path ++ "/test/") o2.2
            test_df o3.1 o3.2 (by rw [h3])

/-- On a successful `download`, the per-split `download_file` call lists
are exactly the object's (pre-fetch) split tables, and the returned
object's tables are the reconciled ones — sublists of the input tables. -/
theorem download_spec (conv : Conv) (rf : RemoveFails) (d : Downloader)
    (format : String) (quality : Int) (fs : FS) (d' : Downloader) (fs' : FS)
    (calls : List Row × List Row × List Row) (ev : List Event)
    (h : download conv rf d format quality fs = .ok (d', fs', calls, ev)) :
    calls.1 = d.train_df ∧ calls.2.1 = d.val_df ∧ calls.2.2 = d.test_df ∧
    d'.train_df.Sublist d.train_df ∧ d'.val_df.Sublist d.val_df ∧
    d'.test_df.Sublist d.test_df := by
  cases hA : run_download_split conv format quality (d.root_path ++ "/train/") fs d.train_df with
  | error e => simp [download, hA] at h
  | ok outA =>
    cases hB : run_download_split conv format quality (d.root_path ++ "/val/") outA.1 d.val_df with
    | error e => simp [download, hA, hB] at h
    | ok outB =>
      cases hC : run_download_split conv format quality (d.root_path ++ "/test/") outB.1 d.test_df with
      | error e => simp [download, hA, hB, hC] at h
      | ok outC =>
        cases hX : cross_check rf format d.root_path outC.1 d.train_df d.val_df d.test_df with
        | error e => simp [download, hA, hB, hC, hX] at h
        | ok res =>
          simp only [download, hA, hB, hC, hX, Except.ok.injEq, Prod.mk.injEq] at h
          obtain ⟨hd', hfs', hcalls, hev⟩ := h
          have hsub := cross_check_sublists rf format d.root_path outC.1
            d.train_df d.val_df d.test_df res.1 res.2.1 res.2.2.1 res.2.2.2.1
            res.2.2.2.2 (by rw [hX])
          have hcA := run_download_split_calls conv format quality
            (d.root_path ++ "/train/") d.train_df fs outA.1 outA.2.1 outA.2.2 (by rw [hA])
          have hcB := run_download_split_calls conv format quality
            (d.root_path ++ "/val/") d.val_df outA.1 outB.1 outB.2.1 outB.2.2 (by rw [hB])
          have hcC := run_download_split_calls conv format quality
            (d.root_path ++ "/test/") d.test_df outB.1 outC.1 outC.2.1 outC.2.2 (by rw [hC])
          refine ⟨?_, ?_, ?_, ?_, ?_, ?_⟩
          · rw [← hcalls]
            exact hcA
          · rw [← hcalls]
            exact hcB
          · rw [← hcalls]
            exact hcC
          · rw [← hd']
            exact hsub.1
          · rw [← hd']
            exact hsub.2.1
          · rw [← hd']
            exact hsub.2.2

/-- Claim C10: on a run of `download`, `cross_check` replaces the object's
in-memory split tables with the reconciled ones, so a second `download`
call on the same object calls `download_file` exactly on the rows that
survived the previous reconcile — a row of the original tables that was
dropped (for instance because its file was deleted as invalid) is never
re-attempted in-process. -/
theorem C10_tables_replaced (conv : Conv) (rf : RemoveFails) (d : Downloader)
    (format : String) (quality : Int) (fs : FS)
    (d1 d2 : Downloader) (fs1 fs2 : FS)
    (calls1 calls2 : List Row × List Row × List Row) (ev1 ev2 : List Event)
    (h1 : download conv rf d format quality fs = .ok (d1, fs1, calls1, ev1))
    (h2 : download conv rf d1 format quality fs1 = .ok (d2, fs2, calls2, ev2)) :
    (d1.train_df.Sublist d.train_df ∧ d1.val_df.Sublist d.val_df ∧
      d1.test_df.Sublist d.test_df) ∧
    (calls2.1 = d1.train_df ∧ calls2.2.1 = d1.val_df ∧ calls2.2.2 = d1.test_df) ∧
    (∀ r, r ∈ d.train_df → r ∉ d1.train_df → r ∉ calls2.1) ∧
    (∀ r, r ∈ d.val_df → r ∉ d1.val_df → r ∉ calls2.2.1) ∧
    (∀ r, r ∈ d.test_df → r ∉ d1.test_df → r ∉ calls2.2.2) := by
  have s1 := download_spec conv rf d format quality fs d1 fs1 calls1 ev1 h1
  have s2 := download_spec conv rf d1 format quality fs1 d2 fs2 calls2 ev2 h2
  refine ⟨⟨s1.2.2.2.1, s1.2.2.2.2.1, s1.2.2.2.2.2⟩, ⟨s2.1, s2.2.1, s2.2.2.1⟩, ?_, ?_, ?_⟩
  · intro r _ hnot
    rw [s2.1]
    exact hnot
  · intro r _ hnot
    rw [s2.2.1]
    exact hnot
  · intro r _ hnot
    rw [s2.2.2.1]
    exact hnot

theorem C10_witness :
    ((Downloader.mk "r" 1 [] [] [] "wav" 5).train_df.Sublist
      (Downloader.mk "r" 1 [] [] [] "wav" 5).train_df) ∧
    (([] : List Row) = (Downloader.mk "r" 1 [] [] [] "wav" 5).train_df) := by
  have h := C10_tables_replaced (fun _ s => s) (fun _ => false)
    (Downloader.mk "r" 1 [] [] [] "wav" 5) "wav" 5 (fun _ => none)
    (Downloader.mk "r" 1 [] [] [] "wav" 5) (Downloader.mk "r" 1 [] [] [] "wav" 5)
    (fun _ => none) (fun _ => none) ([], [], []) ([], [], [])
    [Event.reconciled "train", .reconciled "val", .reconciled "test",
      .wroteCsv "train" ("r" ++ "/train.csv") [] true false,
      .wroteCsv "val" ("r" ++ "/val.csv") [] true false,
      .wroteCsv "test" ("r" ++ "/test.csv") [] true false]
    [Event.reconciled "train", .reconciled "val", .reconciled "test",
      .wroteCsv "train" ("r" ++ "/train.csv") [] true false,
      .wroteCsv "val" ("r" ++ "/val.csv") [] true false,
      .wroteCsv "test" ("r" ++ "/test.csv") [] true false]
    (by rfl) (by rfl)
  exact ⟨h.1.1, h.2.1.1⟩

end AudiocapsDownload
